import Mathlib

/-!
Verification development for the table-utility module `data_utils.py` of the
TumorDecon repository.

A pandas DataFrame is embedded as an explicit table: a list of column labels
and a list of rows, each row being an index key (the gene / sample identifier)
paired with its list of cell values.  Cell values are modelled as exact
rationals; float rounding is outside the scope of the embedding.  Functions
that can raise a Python exception are embedded as `Except String`-valued
functions whose error string names the exception raised by the source.

Where pandas sorts (`sort_index`, `sort_values`, `median`), the embedding uses
`List.insertionSort`, a stable comparison sort; `Series.sort_values` with
`ascending=False` is embedded as pandas implements it, namely as the reversal
of an ascending argsort.  External numerical collaborators whose internal
arithmetic is irrelevant to every claim (sklearn `preprocessing.scale`,
scipy correlation coefficients) are taken as explicit function parameters;
collaborators whose arithmetic the claims do constrain (`MinMaxScaler`,
`VarianceThreshold`, pandas `median`) are embedded concretely.
-/

/-- A pandas DataFrame: column labels plus rows of (index key, cell values). -/
structure DF where
  cols : List String
  rows : List (String × List ℚ)
deriving DecidableEq

/-- The index of the table, in row order (`df.index`). -/
def DF.keys (df : DF) : List String := df.rows.map Prod.fst

/-- The cell values of the table, row-major (`df.values`). -/
def DF.vals (df : DF) : List (List ℚ) := df.rows.map Prod.snd

/-- Well-formedness: every row has one value per column label. -/
def DF.WF (df : DF) : Prop := ∀ r ∈ df.rows, r.2.length = df.cols.length

instance (df : DF) : Decidable df.WF :=
  inferInstanceAs (Decidable (∀ r ∈ df.rows, r.2.length = df.cols.length))

/-- Column `j` of a row-major value matrix (missing entries default to 0;
they never arise on well-formed tables). -/
def colVals (m : List (List ℚ)) (j : ℕ) : List ℚ := m.map (fun r => r.getD j 0)

/-- Column of a DataFrame selected by label, `df[c]` (first matching label). -/
def DF.col (df : DF) (c : String) : List ℚ := colVals df.vals (df.cols.indexOf c)

/-- Minimum of a list of values (`0` on the empty list, which sklearn rejects
before this quantity is ever used). -/
def listMin : List ℚ → ℚ
  | [] => 0
  | x :: xs => xs.foldl min x

/-- Maximum of a list of values (`0` on the empty list). -/
def listMax : List ℚ → ℚ
  | [] => 0
  | x :: xs => xs.foldl max x

/-- One cell of sklearn MinMaxScaler with the default feature range (0, 1):
`X_std = (x - min) / (max - min)`, where a zero denominator is replaced by 1
(`_handle_zeros_in_scale`), so a constant slice is sent to all zeros. -/
def scaleEntry (c : List ℚ) (x : ℚ) : ℚ :=
  (x - listMin c) / (if listMax c - listMin c = 0 then 1 else listMax c - listMin c)

/-- MinMaxScaler applied to one slice (column) of data. -/
def scaleList (c : List ℚ) : List ℚ := c.map (scaleEntry c)

/-- `MinMaxScaler().fit_transform` on a row-major matrix: every column is
rescaled by its own minimum and maximum. -/
def minmaxCols (m : List (List ℚ)) : List (List ℚ) :=
  m.map (fun r => r.enum.map (fun p => scaleEntry (colVals m p.1) p.2))

/-- `df.transpose()` on a row-major value matrix with `k` columns. -/
def mTranspose (k : ℕ) (m : List (List ℚ)) : List (List ℚ) :=
  (List.range k).map (fun j => colVals m j)

/-- The label-restoring tail of `df_normalization`
(`df_norm.columns = df.columns; df_norm.index = df.index`): the freshly
computed value matrix receives the original column labels and index. -/
def relabel (df : DF) (m : List (List ℚ)) : DF := ⟨df.cols, df.keys.zip m⟩

/-- `df_normalization(df, scaling, axis)` from data_utils.py (lines 58-86).
The zscore branch calls `preprocessing.scale(df, axis=axis)`, an external
collaborator taken here as the function parameter `zscale`; the minmax branch
is `MinMaxScaler().fit_transform`, applied to the transposed values when
`axis == 1` and transposed back.  When `scaling` matches neither branch no
code assigns `df_norm`, so the label-restoring line
`df_norm.columns = df.columns` raises `UnboundLocalError`.  The embedding is
a pure function: the input table is not mutated on any branch. -/
def df_normalization (zscale : List (List ℚ) → ℕ → List (List ℚ))
    (df : DF) (scaling : String) (axis : ℕ) : Except String DF :=
  if scaling = "zscore" then
    .ok (relabel df (zscale df.vals axis))
  else if scaling = "minmax" then
    let m := if axis = 1 then mTranspose df.cols.length df.vals else df.vals
    let scaled := minmaxCols m
    let back := if axis = 1 then mTranspose df.vals.length scaled else scaled
    .ok (relabel df back)
  else
    .error "UnboundLocalError: local variable df_norm referenced before assignment"

/-- A pancancer RNA file as parsed by `pd.read_csv`: patient column labels and
one row per gene, holding the Hugo_Symbol column, the Entrez_Gene_Id column
(both coerced to text by the `astype(str)` line) and the expression values. -/
structure RawRna where
  patients : List String
  rnaRows : List (String × String × List ℚ)
deriving DecidableEq

/-- `read_pancancer_rna_file(rna_file_path, identifier)` from data_utils.py
(lines 3-31).  The first component of the result records whether the file was
read before the call returned or raised: the source executes
`pd.read_csv(rna_file_path, sep=...)` and the `astype(str)` coercion
unconditionally, before the identifier check, so this flag is `true` on every
path, including the `ValueError` path taken for an unrecognised identifier. -/
def read_pancancer_rna_file (file : RawRna) (identifier : String) :
    Bool × Except String DF :=
  if identifier = "hugo" then
    (true, .ok ⟨file.patients, file.rnaRows.map (fun r => (r.1, r.2.2))⟩)
  else if identifier = "entrez" then
    (true, .ok ⟨file.patients, file.rnaRows.map (fun r => (r.2.1, r.2.2))⟩)
  else
    (true, .error "ValueError: gene identifier must be set to hugo or entrez")

/-- `keep_common_genes(rna_df, sig_df)` from data_utils.py (lines 89-111):
restrict each table to the row keys present in both (`pd.merge` with an inner
join on the index), then `sort_index()` both results.  `sort_index` is
embedded as a stable comparison sort on the row key. -/
def keep_common_genes (rna_df sig_df : DF) : DF × DF :=
  let rna_red := List.insertionSort (fun a b : String × List ℚ => a.1 ≤ b.1)
    (rna_df.rows.filter (fun r => sig_df.keys.contains r.1))
  let sig_red := List.insertionSort (fun a b : String × List ℚ => a.1 ≤ b.1)
    (sig_df.rows.filter (fun r => rna_df.keys.contains r.1))
  (⟨rna_df.cols, rna_red⟩, ⟨sig_df.cols, sig_red⟩)

/-- Pandas `Series.median` (used row-wise by `ref.median(axis=1)`): the middle
element of the sorted values, or the mean of the two middle elements when the
count is even.  Pandas yields NaN on an empty series; the embedding returns 0
there, and every theorem touching medians assumes a nonempty row. -/
def median (l : List ℚ) : ℚ :=
  let s := List.insertionSort (fun a b : ℚ => a ≤ b) l
  if s.length = 0 then 0
  else if s.length % 2 = 1 then s.getD (s.length / 2) 0
  else (s.getD (s.length / 2 - 1) 0 + s.getD (s.length / 2) 0) / 2

/-- The `sig_ratios` table of `find_up_down_genes_from_sig`: every cell of the
signature matrix divided by the median of its own row
(`sig_df.divide(ref.median(axis=1), axis=0)`). -/
def sigRatios (sig : DF) : DF :=
  ⟨sig.cols, sig.rows.map (fun r => (r.1, r.2.map (fun v => v / median r.2)))⟩

/-- `sig_ratios[sig_ratios[cell] < down_cutoff].index.tolist()` for the cell
type at column position `j`: the keys, in original row order, of the ratio
rows whose entry in column `j` is below the cutoff. -/
def downGenesAt (sig : DF) (cutoff : ℚ) (j : ℕ) : List String :=
  (((sigRatios sig).rows.filter (fun r => decide (r.2.getD j 0 < cutoff))).map Prod.fst)

/-- `sig_ratios[sig_ratios[cell] > up_cutoff].index.tolist()` for the cell
type at column position `j`. -/
def upGenesAt (sig : DF) (cutoff : ℚ) (j : ℕ) : List String :=
  (((sigRatios sig).rows.filter (fun r => decide (cutoff < r.2.getD j 0))).map Prod.fst)

/-- `find_up_down_genes_from_sig(sig_df, down_cutoff, up_cutoff)` from
data_utils.py (lines 114-156), with `show_plots=False` (the plotting block
touches no returned value).  The two dictionaries `up` and `down` are embedded
as association lists over the column labels in column order. -/
def find_up_down_genes_from_sig (sig : DF) (down_cutoff up_cutoff : ℚ) :
    List (String × List String) × List (String × List String) :=
  (sig.cols.enum.map (fun p => (p.2, upGenesAt sig up_cutoff p.1)),
   sig.cols.enum.map (fun p => (p.2, downGenesAt sig down_cutoff p.1)))

/-- Pandas `Series.sort_values(ascending=False)` on column `j` of the rows:
pandas computes an ascending argsort and reverses it (`indexer[::-1]` in
`nargsort`), so with a stable ascending kernel tied entries end up in
reversed input order. -/
def sortValuesDesc (rows : List (String × List ℚ)) (j : ℕ) :
    List (String × List ℚ) :=
  (List.insertionSort (fun a b : String × List ℚ => a.2.getD j 0 ≤ b.2.getD j 0) rows).reverse

/-- `get_top_ranked_genes_from_sig(sig_df, sig_size)` from data_utils.py
(lines 159-175): for each cell type, the keys of the rows sorted by descending
value in that column, truncated to the first `sig_size` entries
(`sig_df[cell].sort_values(ascending=False).index[:sig_size]`). -/
def get_top_ranked_genes_from_sig (sig : DF) (sig_size : ℕ) :
    List (String × List String) :=
  sig.cols.enum.map
    (fun p => (p.2, ((sortValuesDesc sig.rows p.1).map Prod.fst).take sig_size))

/-- Modelled from the spec: the spec states that `top_ranked_genes` breaks
ties "by the underlying stable sort's input order", i.e. sorts descending with
a stable sort so that tied genes keep the table's row order.  This definition
follows those words (a stable descending sort); it exists to be compared with
`get_top_ranked_genes_from_sig`, which reverses a stable ascending sort. -/
def top_ranked_genes_spec (sig : DF) (sig_size : ℕ) : List (String × List String) :=
  sig.cols.enum.map
    (fun p => (p.2,
      ((List.insertionSort (fun a b : String × List ℚ => b.2.getD p.1 0 ≤ a.2.getD p.1 0) sig.rows).map
        Prod.fst).take sig_size))

/-- Population variance of one feature across the samples, `np.var` with
`ddof=0`, as computed by sklearn `VarianceThreshold.fit` (0 on an empty list,
which sklearn rejects before the variance is used). -/
def rowVar (l : List ℚ) : ℚ :=
  if l.length = 0 then 0
  else ((l.map (fun x => (x - l.sum / (l.length : ℚ)) ^ 2)).sum) / (l.length : ℚ)

/-- `variance_threshold_selector(data, threshold)` from data_utils.py
(lines 179-200): transpose so genes are sklearn features, fit
`VarianceThreshold(threshold)`, keep the supported features, transpose back.
sklearn supports a feature iff its variance strictly exceeds the threshold,
and `fit` raises `ValueError("No feature in X meets the variance threshold
...")` when no feature does.  The supported features are then selected BY
COLUMN LABEL, not by position: `data_red = data[data.columns[support]]`
(line 197) asks for the supported gene labels in ascending support order,
and pandas answers a label request on a (possibly non-unique) column index
with every column bearing each requested label, in original position order —
so one passing gene label drags along all same-named genes, including ones
whose variance is at or below the threshold. -/
def variance_threshold_selector (data : DF) (threshold : ℚ) : Except String DF :=
  let kept := data.rows.filter (fun r => decide (threshold < rowVar r.2))
  if kept.isEmpty then
    .error "ValueError: No feature in X meets the variance threshold"
  else
    .ok ⟨data.cols,
      (kept.map Prod.fst).flatMap (fun g => data.rows.filter (fun r => decide (r.1 = g)))⟩

/-- `corr_table(methods, results, cell_types, true_freqs)` from data_utils.py
(lines 243-260).  The scipy coefficients `pearsonr(x, y)[0]` and
`spearmanr(x, y)[0]` are external collaborators taken as the function
parameters `pearsonr` and `spearmanr`; `results` is the dictionary mapping a
method name to its estimate table.  The per-cell loop fills one entry per
(cell type, method); the per-sample loop then reuses the loop variable `cell`,
which still holds the LAST entry of `cell_types`, for every sample.  When
`cell_types` is empty but `true_freqs` has rows, that stale read raises
`NameError`.  `np.abs` is applied to every returned entry. -/
def corr_table (pearsonr spearmanr : List ℚ → List ℚ → ℚ)
    (methods : List String) (results : String → DF) (cell_types : List String)
    (true_freqs : DF) : Except String (DF × DF × DF × DF) :=
  if cell_types.isEmpty && !true_freqs.rows.isEmpty then
    .error "NameError: name cell is not defined"
  else
    let lastCell := cell_types.getLastD ""
    .ok
      (⟨methods, cell_types.map (fun cell => (cell,
          methods.map (fun m => |pearsonr ((results m).col cell) (true_freqs.col cell)|)))⟩,
       ⟨methods, true_freqs.keys.map (fun s => (s,
          methods.map (fun m => |pearsonr ((results m).col lastCell) (true_freqs.col lastCell)|)))⟩,
       ⟨methods, cell_types.map (fun cell => (cell,
          methods.map (fun m => |spearmanr ((results m).col cell) (true_freqs.col cell)|)))⟩,
       ⟨methods, true_freqs.keys.map (fun s => (s,
          methods.map (fun m => |spearmanr ((results m).col lastCell) (true_freqs.col lastCell)|)))⟩)

/-- `predicted_truth_bycell(method, method_freqs, exp_freqs, cell_types)` from
data_utils.py (lines 298-314).  The body first evaluates
`pd.concat([method_freqs[cell_types], exp_freqs[cell_types]])` (KeyError when
a requested cell type is missing from either table) and assigns it a Method
column (ValueError when the concatenated length differs from
`2 * exp_freqs.shape[0]`); it then evaluates `np.zeros(...)`, but the module
never binds the name `np` (every function imports only what it names, and
this one imports only pandas), so every surviving call raises `NameError`
before any long-format table can be returned. -/
def predicted_truth_bycell (method : String) (method_freqs exp_freqs : DF)
    (cell_types : List String) : Except String DF :=
  if ¬ (∀ c ∈ cell_types, c ∈ method_freqs.cols ∧ c ∈ exp_freqs.cols) then
    .error "KeyError: requested cell type column is missing"
  else if method_freqs.rows.length + exp_freqs.rows.length ≠ 2 * exp_freqs.rows.length then
    .error "ValueError: Length of values does not match length of index"
  else
    .error "NameError: name np is not defined"

/-- Discriminator for `Except` results: is the computation successful? -/
def exceptIsOk {α : Type} : Except String α → Bool
  | .ok _ => true
  | .error _ => false

/-- Keys survive relabelling whenever the new value matrix has at least one
row per original row (always the case in `df_normalization`). -/
theorem relabel_keys (df : DF) (m : List (List ℚ)) (h : df.rows.length ≤ m.length) :
    (relabel df m).keys = df.keys := by
  show (df.keys.zip m).map Prod.fst = df.keys
  exact List.map_fst_zip _ _ (by simpa [DF.keys] using h)

/-- C10: for every table and axis, calling normalize (df_normalization) with a
scaling argument that is neither "zscore" nor "minmax" does not return a table
and does not raise a validated invalid-argument error: no branch assigns the
result variable `df_norm`, so the label-restoring line fails with
UnboundLocalError. -/
theorem C10_invalid_scaling_unbound_local (zscale : List (List ℚ) → ℕ → List (List ℚ))
    (df : DF) (scaling : String) (axis : ℕ)
    (h1 : scaling ≠ "zscore") (h2 : scaling ≠ "minmax") :
    df_normalization zscale df scaling axis =
      .error "UnboundLocalError: local variable df_norm referenced before assignment" := by
  simp [df_normalization, h1, h2]

theorem C10_invalid_scaling_unbound_local_witness :
    ("quantile" : String) ≠ "zscore" ∧ ("quantile" : String) ≠ "minmax" ∧
    df_normalization (fun m _ => m) ⟨["c1"], [("g1", [1])]⟩ "quantile" 0 =
      .error "UnboundLocalError: local variable df_norm referenced before assignment" :=
  ⟨by decide, by decide,
    C10_invalid_scaling_unbound_local (fun m _ => m) ⟨["c1"], [("g1", [1])]⟩ "quantile" 0
      (by decide) (by decide)⟩

/-- C8: for every table, scaling method in zscore/minmax and axis,
df_normalization succeeds and returns a table whose column labels and row
index are exactly those of the input (the embedding is a pure function, so
the input table itself is never mutated).  The external zscore scaler is any
shape-preserving array transformation, which `preprocessing.scale` is. -/
theorem C8_output_labels_preserved (zscale : List (List ℚ) → ℕ → List (List ℚ))
    (hz : ∀ m a, (zscale m a).length = m.length)
    (df : DF) (scaling : String) (axis : ℕ)
    (hs : scaling = "zscore" ∨ scaling = "minmax") :
    ∃ out, df_normalization zscale df scaling axis = .ok out ∧
      out.cols = df.cols ∧ out.keys = df.keys := by
  have hlen : ∀ m' : List (List ℚ), m'.length = df.rows.length →
      (relabel df m').keys = df.keys :=
    fun m' h => relabel_keys df m' (le_of_eq h.symm)
  rcases hs with h | h <;> subst h
  · refine ⟨relabel df (zscale df.vals axis), ?_, rfl, ?_⟩
    · simp [df_normalization]
    · exact hlen _ (by rw [hz]; simp [DF.vals])
  · by_cases ha : axis = 1
    · refine ⟨relabel df (mTranspose df.vals.length (minmaxCols (mTranspose df.cols.length df.vals))),
        by simp [df_normalization, ha], rfl, hlen _ ?_⟩
      simp [mTranspose, DF.vals]
    · refine ⟨relabel df (minmaxCols df.vals),
        by simp [df_normalization, ha], rfl, hlen _ ?_⟩
      simp [minmaxCols, DF.vals]

theorem C8_output_labels_preserved_witness :
    (∀ (m : List (List ℚ)) (a : ℕ), ((fun m' (_ : ℕ) => m') m a).length = m.length) ∧
    (("zscore" : String) = "zscore" ∨ ("zscore" : String) = "minmax") ∧
    ∃ out, df_normalization (fun m' (_ : ℕ) => m') ⟨["c1"], [("g1", [1]), ("g2", [2])]⟩ "zscore" 0 =
        .ok out ∧ out.cols = ["c1"] ∧ out.keys = ["g1", "g2"] :=
  ⟨fun _ _ => rfl, Or.inl rfl,
    C8_output_labels_preserved (fun m' (_ : ℕ) => m') (fun _ _ => rfl)
      ⟨["c1"], [("g1", [1]), ("g2", [2])]⟩ "zscore" 0 (Or.inl rfl)⟩

/-- C7 counterexample: on a one-gene file and the unsupported identifier
"ensembl", read_pancancer_rna_file does raise the invalid-argument ValueError,
but the first component of the result — which records whether
`pd.read_csv` ran before the call finished — is `true`: the file is fully
read before the failure, contradicting the claim that no read (not even a
partial one) is performed. -/
theorem C7_counterexample_read_before_error :
    read_pancancer_rna_file ⟨["p1"], [("TP53", "7157", [5])]⟩ "ensembl" =
      (true, .error "ValueError: gene identifier must be set to hugo or entrez") := by
  rfl

/-- C7 (amended): for every file and every identifier that is neither "hugo"
nor "entrez", read_pancancer_rna_file fails with the invalid-argument
ValueError, but only after the file has been read in full: the read flag of
the result is `true` on this failure path. -/
theorem C7_invalid_identifier_fails_after_read (file : RawRna) (identifier : String)
    (h1 : identifier ≠ "hugo") (h2 : identifier ≠ "entrez") :
    read_pancancer_rna_file file identifier =
      (true, .error "ValueError: gene identifier must be set to hugo or entrez") := by
  simp [read_pancancer_rna_file, h1, h2]

theorem C7_invalid_identifier_fails_after_read_witness :
    ("gene_name" : String) ≠ "hugo" ∧ ("gene_name" : String) ≠ "entrez" ∧
    read_pancancer_rna_file ⟨["p1", "p2"], [("A1BG", "1", [3, 4])]⟩ "gene_name" =
      (true, .error "ValueError: gene identifier must be set to hugo or entrez") :=
  ⟨by decide, by decide,
    C7_invalid_identifier_fails_after_read ⟨["p1", "p2"], [("A1BG", "1", [3, 4])]⟩ "gene_name"
      (by decide) (by decide)⟩

/-- C6: paired_predictions_long (predicted_truth_bycell) never returns a
long-format table for any input: every call raises an exception, because the
function body reads the unbound module name `np`; on inputs surviving the two
earlier pandas steps the exception is exactly that NameError. -/
theorem C6_never_returns_table (method : String) (method_freqs exp_freqs : DF)
    (cell_types : List String) :
    exceptIsOk (predicted_truth_bycell method method_freqs exp_freqs cell_types) = false := by
  unfold predicted_truth_bycell
  split
  · rfl
  · split
    · rfl
    · rfl

/-- C6, at the concrete failing input of the report: one sample, one cell
type, well-formed columns on both tables, so the pandas steps succeed and the
call dies on the unbound name `np`. -/
theorem C6_fails_at_concrete_input :
    predicted_truth_bycell "cibersort" ⟨["CD8"], [("s1", [1])]⟩ ⟨["CD8"], [("s1", [1])]⟩ ["CD8"] =
      .error "NameError: name np is not defined" := by
  rfl

/-- C4 counterexample: on a one-gene table whose row is constant, every
variance is 0, no row exceeds the threshold 1/2, and
variance_threshold_selector raises sklearn's ValueError instead of returning
a table, so the function does not return "exactly the rows whose variance
strictly exceeds the threshold" for every table and threshold. -/
theorem C4_counterexample_no_row_passes :
    variance_threshold_selector ⟨["s1", "s2"], [("g1", [3, 3])]⟩ (1/2) =
      .error "ValueError: No feature in X meets the variance threshold" := by
  with_unfolding_all rfl

/-- In a table with duplicate-free keys, selecting columns by one row's label
returns exactly that row. -/
theorem filter_key_of_nodup :
    ∀ (rows : List (String × List ℚ)), (rows.map Prod.fst).Nodup →
      ∀ {r : String × List ℚ}, r ∈ rows →
        rows.filter (fun x => decide (x.1 = r.1)) = [r] := by
  intro rows
  induction rows with
  | nil => intro _ r hr; cases hr
  | cons a as ih =>
    intro h r hr
    have hna : a.1 ∉ as.map Prod.fst := by
      rw [List.map_cons, List.nodup_cons] at h
      exact h.1
    have hnas : (as.map Prod.fst).Nodup := by
      rw [List.map_cons, List.nodup_cons] at h
      exact h.2
    rcases List.mem_cons.mp hr with rfl | hras
    · rw [List.filter_cons_of_pos (by simp)]
      have hnil : as.filter (fun x => decide (x.1 = r.1)) = [] := by
        rw [List.filter_eq_nil_iff]
        intro x hx
        simp only [decide_eq_true_eq]
        intro hxe
        exact hna (hxe ▸ List.mem_map.mpr ⟨x, hx, rfl⟩)
      rw [hnil]
    · have hne : ¬ (a.1 = r.1) := by
        intro he
        exact hna (by rw [he]; exact List.mem_map.mpr ⟨r, hras, rfl⟩)
      rw [List.filter_cons_of_neg (by simpa using hne)]
      exact ih hnas hras

/-- Expanding the passing labels of a duplicate-free table by label lookup
returns exactly the passing rows themselves. -/
theorem flatMap_filter_key (rows : List (String × List ℚ))
    (h : (rows.map Prod.fst).Nodup) :
    ∀ l : List (String × List ℚ), (∀ r ∈ l, r ∈ rows) →
      (l.map Prod.fst).flatMap (fun g => rows.filter (fun r => decide (r.1 = g))) = l := by
  intro l
  induction l with
  | nil => intro _; rfl
  | cons a as ih =>
    intro hl
    rw [List.map_cons, List.flatMap_cons,
      filter_key_of_nodup rows h (hl a (List.mem_cons_self _ _)),
      ih (fun r hr => hl r (List.mem_cons_of_mem _ hr))]
    rfl

/-- C4 (amended): on a table with duplicate-free gene keys, whenever at least
one row has variance strictly above the threshold (otherwise sklearn's fit
raises ValueError), variance_threshold_selector returns a table with the same
column set whose rows are exactly the input rows with variance strictly above
the threshold, in their original relative order; every retained row has
variance > threshold and every dropped row has variance ≤ threshold.  The
duplicate-free-key hypothesis is needed because the source selects supported
features BY LABEL: as the final conjunct shows, with two rows both named "g"
the variance-0 row ("g", [1, 1]) is retained merely because the other row
named "g" passes the threshold. -/
theorem C4_variance_filter (data : DF) (threshold : ℚ)
    (hnod : data.keys.Nodup)
    (h : ∃ r ∈ data.rows, threshold < rowVar r.2) :
    (∃ out, variance_threshold_selector data threshold = .ok out ∧
      out.cols = data.cols ∧
      out.rows.Sublist data.rows ∧
      (∀ r ∈ out.rows, threshold < rowVar r.2) ∧
      (∀ r ∈ data.rows, r ∉ out.rows → rowVar r.2 ≤ threshold)) ∧
    variance_threshold_selector ⟨["s1", "s2"], [("g", [0, 4]), ("g", [1, 1])]⟩ (1/2) =
      .ok ⟨["s1", "s2"], [("g", [0, 4]), ("g", [1, 1])]⟩ := by
  refine ⟨?_, by with_unfolding_all rfl⟩
  rcases h with ⟨r0, hr0, hv0⟩
  have hmem : r0 ∈ data.rows.filter (fun r => decide (threshold < rowVar r.2)) :=
    List.mem_filter.mpr ⟨hr0, by simpa using hv0⟩
  have hne : (data.rows.filter (fun r => decide (threshold < rowVar r.2))).isEmpty = false := by
    rcases l : data.rows.filter (fun r => decide (threshold < rowVar r.2)) with _ | ⟨a, as⟩
    · rw [l] at hmem; cases hmem
    · rw [l]; rfl
  have hexp : ((data.rows.filter (fun r => decide (threshold < rowVar r.2))).map Prod.fst).flatMap
      (fun g => data.rows.filter (fun r => decide (r.1 = g))) =
      data.rows.filter (fun r => decide (threshold < rowVar r.2)) :=
    flatMap_filter_key data.rows hnod _ (fun r hr => (List.mem_filter.mp hr).1)
  refine ⟨⟨data.cols, data.rows.filter (fun r => decide (threshold < rowVar r.2))⟩, ?_, rfl,
    List.filter_sublist _, ?_, ?_⟩
  · simp [variance_threshold_selector, hne, hexp]
  · intro r hr
    simpa using (List.mem_filter.mp hr).2
  · intro r hr hnot
    by_contra hgt
    exact hnot (List.mem_filter.mpr ⟨hr, by simpa using not_le.mp hgt⟩)

theorem C4_variance_filter_witness :
    ((⟨["s1", "s2"], [("g1", [0, 4]), ("g2", [1, 1])]⟩ : DF).keys.Nodup ∧
     (∃ r ∈ (⟨["s1", "s2"], [("g1", [0, 4]), ("g2", [1, 1])]⟩ : DF).rows,
        (1 : ℚ)/2 < rowVar r.2)) ∧
    ((∃ out, variance_threshold_selector ⟨["s1", "s2"], [("g1", [0, 4]), ("g2", [1, 1])]⟩ ((1 : ℚ)/2) =
        .ok out ∧
      out.cols = (⟨["s1", "s2"], [("g1", [0, 4]), ("g2", [1, 1])]⟩ : DF).cols ∧
      out.rows.Sublist (⟨["s1", "s2"], [("g1", [0, 4]), ("g2", [1, 1])]⟩ : DF).rows ∧
      (∀ r ∈ out.rows, (1 : ℚ)/2 < rowVar r.2) ∧
      (∀ r ∈ (⟨["s1", "s2"], [("g1", [0, 4]), ("g2", [1, 1])]⟩ : DF).rows, r ∉ out.rows →
        rowVar r.2 ≤ (1 : ℚ)/2)) ∧
     variance_threshold_selector ⟨["s1", "s2"], [("g", [0, 4]), ("g", [1, 1])]⟩ (1/2) =
       .ok ⟨["s1", "s2"], [("g", [0, 4]), ("g", [1, 1])]⟩) :=
  ⟨⟨by decide, by with_unfolding_all decide⟩,
    C4_variance_filter ⟨["s1", "s2"], [("g1", [0, 4]), ("g2", [1, 1])]⟩ ((1 : ℚ)/2)
      (by decide) (by with_unfolding_all decide)⟩

/-- Sorting rows by key with a stable comparison sort yields rows whose key
sequence is sorted. -/
theorem sorted_keys_of_insertionSort (rows : List (String × List ℚ)) :
    List.Sorted (fun a b : String => a ≤ b)
      ((List.insertionSort (fun a b : String × List ℚ => a.1 ≤ b.1) rows).map Prod.fst) := by
  haveI : IsTotal (String × List ℚ) (fun a b => a.1 ≤ b.1) := ⟨fun a b => le_total a.1 b.1⟩
  haveI : IsTrans (String × List ℚ) (fun a b => a.1 ≤ b.1) :=
    ⟨fun _ _ _ hab hbc => le_trans hab hbc⟩
  exact List.Pairwise.map Prod.fst (fun _ _ h => h)
    (List.sorted_insertionSort (fun a b : String × List ℚ => a.1 ≤ b.1) rows)

/-- Membership in either half of `keep_common_genes`: a (key, values) row
survives exactly when it is a row of the first table whose key occurs in the
second table. -/
theorem mem_keep_common (own other : DF) (p : String × List ℚ) :
    p ∈ List.insertionSort (fun a b : String × List ℚ => a.1 ≤ b.1)
        (own.rows.filter (fun r => other.keys.contains r.1)) ↔
      p ∈ own.rows ∧ p.1 ∈ other.keys := by
  rw [(List.perm_insertionSort _ _).mem_iff, List.mem_filter]
  simp

/-- Keys of either half of `keep_common_genes` are exactly the keys common to
both tables. -/
theorem mem_keys_keep_common (own other : DF) (g : String) :
    g ∈ (List.insertionSort (fun a b : String × List ℚ => a.1 ≤ b.1)
        (own.rows.filter (fun r => other.keys.contains r.1))).map Prod.fst ↔
      g ∈ own.keys ∧ g ∈ other.keys := by
  rw [List.mem_map]
  constructor
  · rintro ⟨p, hp, rfl⟩
    rcases (mem_keep_common own other p).mp hp with ⟨h1, h2⟩
    exact ⟨List.mem_map.mpr ⟨p, h1, rfl⟩, h2⟩
  · rintro ⟨h1, h2⟩
    rcases List.mem_map.mp h1 with ⟨p, hp, rfl⟩
    exact ⟨p, (mem_keep_common own other p).mpr ⟨hp, h2⟩, rfl⟩

/-- The keys of either half of `keep_common_genes` have no duplicates when
the corresponding input table has none. -/
theorem nodup_keys_keep_common (own other : DF) (h : own.keys.Nodup) :
    ((List.insertionSort (fun a b : String × List ℚ => a.1 ≤ b.1)
        (own.rows.filter (fun r => other.keys.contains r.1))).map Prod.fst).Nodup := by
  have hperm : ((List.insertionSort (fun a b : String × List ℚ => a.1 ≤ b.1)
      (own.rows.filter (fun r => other.keys.contains r.1))).map Prod.fst).Perm
      ((own.rows.filter (fun r => other.keys.contains r.1)).map Prod.fst) :=
    (List.perm_insertionSort _ _).map Prod.fst
  have hsub : ((own.rows.filter (fun r => other.keys.contains r.1)).map Prod.fst).Sublist
      own.keys := (List.filter_sublist _).map Prod.fst
  exact hperm.symm.nodup (hsub.nodup h)

/-- C2: for every pair of tables with duplicate-free gene keys,
intersect_by_index (keep_common_genes) returns two tables whose key sequences
are identical and sorted, whose key set is exactly the intersection of the two
input key sets, and whose rows carry the unchanged values of the respective
input table — so row i of both outputs refers to the same gene. -/
theorem C2_keep_common_genes (rna_df sig_df : DF)
    (h1 : rna_df.keys.Nodup) (h2 : sig_df.keys.Nodup) :
    ((keep_common_genes rna_df sig_df).1.keys = (keep_common_genes rna_df sig_df).2.keys)
  ∧ List.Sorted (fun a b : String => a ≤ b) (keep_common_genes rna_df sig_df).1.keys
  ∧ (∀ g, g ∈ (keep_common_genes rna_df sig_df).1.keys ↔ g ∈ rna_df.keys ∧ g ∈ sig_df.keys)
  ∧ (∀ g row, (g, row) ∈ (keep_common_genes rna_df sig_df).1.rows ↔
      (g, row) ∈ rna_df.rows ∧ g ∈ sig_df.keys)
  ∧ (∀ g row, (g, row) ∈ (keep_common_genes rna_df sig_df).2.rows ↔
      (g, row) ∈ sig_df.rows ∧ g ∈ rna_df.keys) := by
  refine ⟨?_, sorted_keys_of_insertionSort _, fun g => mem_keys_keep_common rna_df sig_df g,
    fun g row => mem_keep_common rna_df sig_df (g, row),
    fun g row => mem_keep_common sig_df rna_df (g, row)⟩
  have hperm : ((keep_common_genes rna_df sig_df).1.keys).Perm
      ((keep_common_genes rna_df sig_df).2.keys) := by
    show ((List.insertionSort (fun a b : String × List ℚ => a.1 ≤ b.1)
        (rna_df.rows.filter (fun r => sig_df.keys.contains r.1))).map Prod.fst).Perm
      ((List.insertionSort (fun a b : String × List ℚ => a.1 ≤ b.1)
        (sig_df.rows.filter (fun r => rna_df.keys.contains r.1))).map Prod.fst)
    rw [List.perm_ext_iff_of_nodup (nodup_keys_keep_common rna_df sig_df h1)
      (nodup_keys_keep_common sig_df rna_df h2)]
    intro g
    rw [mem_keys_keep_common, mem_keys_keep_common]
    exact and_comm
  exact List.eq_of_perm_of_sorted hperm (sorted_keys_of_insertionSort _)
    (sorted_keys_of_insertionSort _)

theorem C2_keep_common_genes_witness :
    ((⟨["p1"], [("b", [1]), ("a", [2]), ("c", [3])]⟩ : DF).keys.Nodup ∧
     (⟨["t1"], [("c", [4]), ("a", [5]), ("d", [6])]⟩ : DF).keys.Nodup) ∧
    (((keep_common_genes ⟨["p1"], [("b", [1]), ("a", [2]), ("c", [3])]⟩
        ⟨["t1"], [("c", [4]), ("a", [5]), ("d", [6])]⟩).1.keys =
      (keep_common_genes ⟨["p1"], [("b", [1]), ("a", [2]), ("c", [3])]⟩
        ⟨["t1"], [("c", [4]), ("a", [5]), ("d", [6])]⟩).2.keys)
  ∧ List.Sorted (fun a b : String => a ≤ b)
      (keep_common_genes ⟨["p1"], [("b", [1]), ("a", [2]), ("c", [3])]⟩
        ⟨["t1"], [("c", [4]), ("a", [5]), ("d", [6])]⟩).1.keys
  ∧ (∀ g, g ∈ (keep_common_genes ⟨["p1"], [("b", [1]), ("a", [2]), ("c", [3])]⟩
        ⟨["t1"], [("c", [4]), ("a", [5]), ("d", [6])]⟩).1.keys ↔
      g ∈ (⟨["p1"], [("b", [1]), ("a", [2]), ("c", [3])]⟩ : DF).keys ∧
      g ∈ (⟨["t1"], [("c", [4]), ("a", [5]), ("d", [6])]⟩ : DF).keys)
  ∧ (∀ g row, (g, row) ∈ (keep_common_genes ⟨["p1"], [("b", [1]), ("a", [2]), ("c", [3])]⟩
        ⟨["t1"], [("c", [4]), ("a", [5]), ("d", [6])]⟩).1.rows ↔
      (g, row) ∈ (⟨["p1"], [("b", [1]), ("a", [2]), ("c", [3])]⟩ : DF).rows ∧
      g ∈ (⟨["t1"], [("c", [4]), ("a", [5]), ("d", [6])]⟩ : DF).keys)
  ∧ (∀ g row, (g, row) ∈ (keep_common_genes ⟨["p1"], [("b", [1]), ("a", [2]), ("c", [3])]⟩
        ⟨["t1"], [("c", [4]), ("a", [5]), ("d", [6])]⟩).2.rows ↔
      (g, row) ∈ (⟨["t1"], [("c", [4]), ("a", [5]), ("d", [6])]⟩ : DF).rows ∧
      g ∈ (⟨["p1"], [("b", [1]), ("a", [2]), ("c", [3])]⟩ : DF).keys)) :=
  ⟨⟨by decide, by decide⟩,
    C2_keep_common_genes ⟨["p1"], [("b", [1]), ("a", [2]), ("c", [3])]⟩
      ⟨["t1"], [("c", [4]), ("a", [5]), ("d", [6])]⟩ (by decide) (by decide)⟩

/-- Reading a per-cell-type association list built over the column labels at
position `j` retrieves the label at `j` paired with the list built for it. -/
theorem enum_map_getD {β : Type} (l : List String) (f : ℕ × String → β) (j : ℕ) (d : β)
    (h : j < l.length) :
    (l.enum.map f).getD j d = f (j, l.getD j "") := by
  have h1 : j < (l.enum.map f).length := by
    simpa [List.enum_length] using h
  rw [List.getD_eq_getElem _ _ h1, List.getElem_map, List.getElem_enum,
    List.getD_eq_getElem _ _ h]

/-- C3 counterexample: on a table with two genes of equal value in the single
category and size 2, the claim's stable tie-breaking (kept input order,
followed by the spec-modelled `top_ranked_genes_spec`) predicts the list
[g1, g2], but get_top_ranked_genes_from_sig — which reverses pandas' stable
ascending argsort — returns [g2, g1]. -/
theorem C3_counterexample_tie_order :
    get_top_ranked_genes_from_sig ⟨["c"], [("g1", [5]), ("g2", [5])]⟩ 2 =
      [("c", ["g2", "g1"])] ∧
    top_ranked_genes_spec ⟨["c"], [("g1", [5]), ("g2", [5])]⟩ 2 =
      [("c", ["g1", "g2"])] := by
  constructor <;> rfl

/-- C3 (amended): for each category (column position j), the returned entry
pairs the category label with the first `size` keys of the rows sorted by
descending value in that category, where the descending order is obtained by
reversing a stable ascending sort — so tied genes appear in reversed
input-row order, not input order; the sorted rows are a permutation of the
input rows, values are non-increasing along them, and on the 3-gene table
with values g1:5, g2:10, g3:1 and size 2 the result for the category is
[g2, g1]. -/
theorem C3_top_ranked_genes (sig : DF) (n j : ℕ) (hj : j < sig.cols.length) :
    ((get_top_ranked_genes_from_sig sig n).getD j ("", []) =
      (sig.cols.getD j "", ((sortValuesDesc sig.rows j).map Prod.fst).take n))
  ∧ List.Sorted (fun a b : String × List ℚ => b.2.getD j 0 ≤ a.2.getD j 0)
      (sortValuesDesc sig.rows j)
  ∧ (sortValuesDesc sig.rows j).Perm sig.rows
  ∧ (((sortValuesDesc sig.rows j).map Prod.fst).take n).length = min n sig.rows.length
  ∧ get_top_ranked_genes_from_sig ⟨["c"], [("g1", [5]), ("g2", [10]), ("g3", [1])]⟩ 2 =
      [("c", ["g2", "g1"])] := by
  haveI : IsTotal (String × List ℚ) (fun a b => a.2.getD j 0 ≤ b.2.getD j 0) :=
    ⟨fun a b => le_total _ _⟩
  haveI : IsTrans (String × List ℚ) (fun a b => a.2.getD j 0 ≤ b.2.getD j 0) :=
    ⟨fun _ _ _ hab hbc => le_trans hab hbc⟩
  have hperm : (sortValuesDesc sig.rows j).Perm sig.rows :=
    (List.reverse_perm _).trans (List.perm_insertionSort _ _)
  refine ⟨enum_map_getD sig.cols _ j ("", []) hj, ?_, hperm, ?_, rfl⟩
  · unfold sortValuesDesc
    rw [List.Sorted, List.pairwise_reverse]
    exact List.sorted_insertionSort _ _
  · rw [List.length_take, List.length_map, hperm.length_eq]

theorem C3_top_ranked_genes_witness :
    0 < (⟨["c"], [("g1", [5]), ("g2", [10]), ("g3", [1])]⟩ : DF).cols.length ∧
    (((get_top_ranked_genes_from_sig ⟨["c"], [("g1", [5]), ("g2", [10]), ("g3", [1])]⟩ 2).getD 0 ("", []) =
      ((⟨["c"], [("g1", [5]), ("g2", [10]), ("g3", [1])]⟩ : DF).cols.getD 0 "",
        ((sortValuesDesc (⟨["c"], [("g1", [5]), ("g2", [10]), ("g3", [1])]⟩ : DF).rows 0).map Prod.fst).take 2))
  ∧ List.Sorted (fun a b : String × List ℚ => b.2.getD 0 0 ≤ a.2.getD 0 0)
      (sortValuesDesc (⟨["c"], [("g1", [5]), ("g2", [10]), ("g3", [1])]⟩ : DF).rows 0)
  ∧ (sortValuesDesc (⟨["c"], [("g1", [5]), ("g2", [10]), ("g3", [1])]⟩ : DF).rows 0).Perm
      (⟨["c"], [("g1", [5]), ("g2", [10]), ("g3", [1])]⟩ : DF).rows
  ∧ (((sortValuesDesc (⟨["c"], [("g1", [5]), ("g2", [10]), ("g3", [1])]⟩ : DF).rows 0).map Prod.fst).take 2).length =
      min 2 (⟨["c"], [("g1", [5]), ("g2", [10]), ("g3", [1])]⟩ : DF).rows.length
  ∧ get_top_ranked_genes_from_sig ⟨["c"], [("g1", [5]), ("g2", [10]), ("g3", [1])]⟩ 2 =
      [("c", ["g2", "g1"])]) :=
  ⟨by decide,
    C3_top_ranked_genes ⟨["c"], [("g1", [5]), ("g2", [10]), ("g3", [1])]⟩ 2 0 (by decide)⟩

/-- In a table with duplicate-free keys, a key determines its row values. -/
theorem key_unique_row (rows : List (String × List ℚ)) (h : (rows.map Prod.fst).Nodup)
    {g : String} {r1 r2 : List ℚ} (h1 : (g, r1) ∈ rows) (h2 : (g, r2) ∈ rows) : r1 = r2 := by
  by_contra hne
  have hpw : rows.Pairwise (fun a b => a.1 ≠ b.1) := by
    rw [List.Nodup, List.pairwise_map] at h
    exact h
  have hsym : Symmetric (fun a b : String × List ℚ => a.1 ≠ b.1) :=
    fun a b hab => hab ∘ Eq.symm
  have hkey := hpw.forall hsym h1 h2 (fun he => hne (congrArg Prod.snd he))
  exact hkey rfl

/-- The median of a nonempty constant list is its value. -/
theorem median_const (l : List ℚ) (v : ℚ) (hne : l ≠ []) (h : ∀ x ∈ l, x = v) :
    median l = v := by
  unfold median
  have hperm : (List.insertionSort (fun a b : ℚ => a ≤ b) l).Perm l :=
    List.perm_insertionSort _ _
  have hvs : ∀ x ∈ List.insertionSort (fun a b : ℚ => a ≤ b) l, x = v :=
    fun x hx => h x (hperm.mem_iff.mp hx)
  have hlen : (List.insertionSort (fun a b : ℚ => a ≤ b) l).length = l.length :=
    hperm.length_eq
  have hpos : 0 < (List.insertionSort (fun a b : ℚ => a ≤ b) l).length := by
    rw [hlen]
    exact List.length_pos.mpr hne
  have hgetD : ∀ k, k < (List.insertionSort (fun a b : ℚ => a ≤ b) l).length →
      (List.insertionSort (fun a b : ℚ => a ≤ b) l).getD k 0 = v := fun k hk => by
    rw [List.getD_eq_getElem _ _ hk]
    exact hvs _ (List.getElem_mem _)
  by_cases hodd : (List.insertionSort (fun a b : ℚ => a ≤ b) l).length % 2 = 1
  · rw [if_neg (by omega), if_pos hodd, hgetD _ (by omega)]
  · rw [if_neg (by omega), if_neg hodd, hgetD _ (by omega), hgetD _ (by omega)]
    ring

/-- Membership in the per-category down-regulated list: with duplicate-free
keys, gene g is listed for column j exactly when its ratio row has entry
below the cutoff at j. -/
theorem mem_downGenesAt (sig : DF) (cutoff : ℚ) (j : ℕ)
    (hnod : sig.keys.Nodup) {g : String} {row : List ℚ} (hrow : (g, row) ∈ sig.rows) :
    g ∈ downGenesAt sig cutoff j ↔
      (row.map (fun v => v / median row)).getD j 0 < cutoff := by
  unfold downGenesAt sigRatios
  constructor
  · intro hg
    rcases List.mem_map.mp hg with ⟨p, hp, hpg⟩
    rcases List.mem_filter.mp hp with ⟨hpmem, hpdec⟩
    rcases List.mem_map.mp hpmem with ⟨r, hr, hrp⟩
    have hkey : r.1 = g := by rw [← hrp] at hpg; exact hpg
    have hrmem : (g, r.2) ∈ sig.rows := hkey ▸ (show (r.1, r.2) ∈ sig.rows from hr)
    have hveq : row = r.2 := key_unique_row sig.rows hnod hrow hrmem
    have hdec : decide ((r.2.map (fun v => v / median r.2)).getD j 0 < cutoff) = true := by
      rw [← hrp] at hpdec
      exact hpdec
    rw [hveq]
    exact of_decide_eq_true hdec
  · intro hlt
    exact List.mem_map.mpr ⟨(g, row.map (fun v => v / median row)),
      List.mem_filter.mpr ⟨List.mem_map.mpr ⟨(g, row), hrow, rfl⟩, decide_eq_true hlt⟩, rfl⟩

/-- Membership in the per-category up-regulated list. -/
theorem mem_upGenesAt (sig : DF) (cutoff : ℚ) (j : ℕ)
    (hnod : sig.keys.Nodup) {g : String} {row : List ℚ} (hrow : (g, row) ∈ sig.rows) :
    g ∈ upGenesAt sig cutoff j ↔
      cutoff < (row.map (fun v => v / median row)).getD j 0 := by
  unfold upGenesAt sigRatios
  constructor
  · intro hg
    rcases List.mem_map.mp hg with ⟨p, hp, hpg⟩
    rcases List.mem_filter.mp hp with ⟨hpmem, hpdec⟩
    rcases List.mem_map.mp hpmem with ⟨r, hr, hrp⟩
    have hkey : r.1 = g := by rw [← hrp] at hpg; exact hpg
    have hrmem : (g, r.2) ∈ sig.rows := hkey ▸ (show (r.1, r.2) ∈ sig.rows from hr)
    have hveq : row = r.2 := key_unique_row sig.rows hnod hrow hrmem
    have hdec : decide (cutoff < (r.2.map (fun v => v / median r.2)).getD j 0) = true := by
      rw [← hrp] at hpdec
      exact hpdec
    rw [hveq]
    exact of_decide_eq_true hdec
  · intro hlt
    exact List.mem_map.mpr ⟨(g, row.map (fun v => v / median row)),
      List.mem_filter.mpr ⟨List.mem_map.mpr ⟨(g, row), hrow, rfl⟩, decide_eq_true hlt⟩, rfl⟩

/-- The down list for any column is a subsequence of the table's keys. -/
theorem downGenesAt_sublist_keys (sig : DF) (c : ℚ) (j : ℕ) :
    (downGenesAt sig c j).Sublist sig.keys := by
  unfold downGenesAt
  have h2 := (List.filter_sublist
    (l := (sigRatios sig).rows) (p := fun r => decide (r.2.getD j 0 < c))).map Prod.fst
  have h3 : ((sigRatios sig).rows.map Prod.fst) = sig.keys := by
    simp [sigRatios, DF.keys]
  rwa [h3] at h2

/-- The up list for any column is a subsequence of the table's keys. -/
theorem upGenesAt_sublist_keys (sig : DF) (c : ℚ) (j : ℕ) :
    (upGenesAt sig c j).Sublist sig.keys := by
  unfold upGenesAt
  have h2 := (List.filter_sublist
    (l := (sigRatios sig).rows) (p := fun r => decide (c < r.2.getD j 0))).map Prod.fst
  have h3 : ((sigRatios sig).rows.map Prod.fst) = sig.keys := by
    simp [sigRatios, DF.keys]
  rwa [h3] at h2

/-- C1: for every signature table with duplicate-free keys and nonzero row
medians, derive_up_down_genes (find_up_down_genes_from_sig) returns mappings
associating the category at column j with the down list (ratio < down_cutoff)
and up list (ratio > up_cutoff), where the ratio of a gene in category j is
its value at j divided by its row median; both lists preserve the table's
original row order (they are subsequences of the key list); and a gene whose
row is constant (ratio 1 everywhere) appears in neither mapping for the
default cutoffs 0.4 = 2/5 and 4.0. -/
theorem C1_find_up_down_genes (sig : DF) (dc uc : ℚ) (j : ℕ) (hj : j < sig.cols.length)
    (hnod : sig.keys.Nodup) (g : String) (row : List ℚ)
    (hrow : (g, row) ∈ sig.rows) (hlen : row.length = sig.cols.length)
    (hmed : median row ≠ 0) :
    ((find_up_down_genes_from_sig sig dc uc).2.getD j ("", []) =
      (sig.cols.getD j "", downGenesAt sig dc j))
  ∧ ((find_up_down_genes_from_sig sig dc uc).1.getD j ("", []) =
      (sig.cols.getD j "", upGenesAt sig uc j))
  ∧ (g ∈ downGenesAt sig dc j ↔ row.getD j 0 / median row < dc)
  ∧ (g ∈ upGenesAt sig uc j ↔ uc < row.getD j 0 / median row)
  ∧ (downGenesAt sig dc j).Sublist sig.keys
  ∧ (upGenesAt sig uc j).Sublist sig.keys
  ∧ (∀ v : ℚ, (∀ x ∈ row, x = v) →
      g ∉ downGenesAt sig (2/5) j ∧ g ∉ upGenesAt sig 4 j) := by
  have hjrow : j < row.length := by rw [hlen]; exact hj
  have hratio : (row.map (fun v => v / median row)).getD j 0 =
      row.getD j 0 / median row := by
    rw [List.getD_eq_getElem _ _ (by simpa using hjrow), List.getElem_map,
      ← List.getD_eq_getElem _ _ hjrow]
  refine ⟨enum_map_getD sig.cols _ j ("", []) hj, enum_map_getD sig.cols _ j ("", []) hj,
    (mem_downGenesAt sig dc j hnod hrow).trans (by rw [hratio]),
    (mem_upGenesAt sig uc j hnod hrow).trans (by rw [hratio]),
    downGenesAt_sublist_keys sig dc j, upGenesAt_sublist_keys sig uc j, ?_⟩
  intro v hv
  have hne : row ≠ [] := by
    intro h0
    rw [h0] at hlen
    simp at hlen
    omega
  have hmv : median row = v := median_const row v hne hv
  have hvne : v ≠ 0 := fun h0 => hmed (by rw [hmv, h0])
  have hrj : row.getD j 0 = v := by
    rw [List.getD_eq_getElem _ _ hjrow]
    exact hv _ (List.getElem_mem _)
  constructor
  · intro hmem
    have h1 := ((mem_downGenesAt sig (2/5) j hnod hrow).trans (by rw [hratio])).mp hmem
    rw [hrj, hmv, div_self hvne] at h1
    norm_num at h1
  · intro hmem
    have h1 := ((mem_upGenesAt sig 4 j hnod hrow).trans (by rw [hratio])).mp hmem
    rw [hrj, hmv, div_self hvne] at h1
    norm_num at h1

theorem C1_find_up_down_genes_witness :
    (0 < (⟨["A", "B", "C"], [("g1", [2, 2, 2]), ("g2", [1, 8, 2])]⟩ : DF).cols.length ∧
     (⟨["A", "B", "C"], [("g1", [2, 2, 2]), ("g2", [1, 8, 2])]⟩ : DF).keys.Nodup ∧
     ("g1", ([2, 2, 2] : List ℚ)) ∈ (⟨["A", "B", "C"], [("g1", [2, 2, 2]), ("g2", [1, 8, 2])]⟩ : DF).rows ∧
     ([2, 2, 2] : List ℚ).length = (⟨["A", "B", "C"], [("g1", [2, 2, 2]), ("g2", [1, 8, 2])]⟩ : DF).cols.length ∧
     median ([2, 2, 2] : List ℚ) ≠ 0) ∧
    (((find_up_down_genes_from_sig ⟨["A", "B", "C"], [("g1", [2, 2, 2]), ("g2", [1, 8, 2])]⟩ (2/5) 4).2.getD 0 ("", []) =
      ((⟨["A", "B", "C"], [("g1", [2, 2, 2]), ("g2", [1, 8, 2])]⟩ : DF).cols.getD 0 "",
        downGenesAt ⟨["A", "B", "C"], [("g1", [2, 2, 2]), ("g2", [1, 8, 2])]⟩ (2/5) 0))
  ∧ ((find_up_down_genes_from_sig ⟨["A", "B", "C"], [("g1", [2, 2, 2]), ("g2", [1, 8, 2])]⟩ (2/5) 4).1.getD 0 ("", []) =
      ((⟨["A", "B", "C"], [("g1", [2, 2, 2]), ("g2", [1, 8, 2])]⟩ : DF).cols.getD 0 "",
        upGenesAt ⟨["A", "B", "C"], [("g1", [2, 2, 2]), ("g2", [1, 8, 2])]⟩ 4 0))
  ∧ ("g1" ∈ downGenesAt ⟨["A", "B", "C"], [("g1", [2, 2, 2]), ("g2", [1, 8, 2])]⟩ (2/5) 0 ↔
      ([2, 2, 2] : List ℚ).getD 0 0 / median ([2, 2, 2] : List ℚ) < 2/5)
  ∧ ("g1" ∈ upGenesAt ⟨["A", "B", "C"], [("g1", [2, 2, 2]), ("g2", [1, 8, 2])]⟩ 4 0 ↔
      (4 : ℚ) < ([2, 2, 2] : List ℚ).getD 0 0 / median ([2, 2, 2] : List ℚ))
  ∧ (downGenesAt ⟨["A", "B", "C"], [("g1", [2, 2, 2]), ("g2", [1, 8, 2])]⟩ (2/5) 0).Sublist
      (⟨["A", "B", "C"], [("g1", [2, 2, 2]), ("g2", [1, 8, 2])]⟩ : DF).keys
  ∧ (upGenesAt ⟨["A", "B", "C"], [("g1", [2, 2, 2]), ("g2", [1, 8, 2])]⟩ 4 0).Sublist
      (⟨["A", "B", "C"], [("g1", [2, 2, 2]), ("g2", [1, 8, 2])]⟩ : DF).keys
  ∧ (∀ v : ℚ, (∀ x ∈ ([2, 2, 2] : List ℚ), x = v) →
      "g1" ∉ downGenesAt ⟨["A", "B", "C"], [("g1", [2, 2, 2]), ("g2", [1, 8, 2])]⟩ (2/5) 0 ∧
      "g1" ∉ upGenesAt ⟨["A", "B", "C"], [("g1", [2, 2, 2]), ("g2", [1, 8, 2])]⟩ 4 0)) :=
  ⟨⟨by decide, by decide, by decide, by decide, by with_unfolding_all decide⟩,
    C1_find_up_down_genes ⟨["A", "B", "C"], [("g1", [2, 2, 2]), ("g2", [1, 8, 2])]⟩ (2/5) 4 0
      (by decide) (by decide) "g1" [2, 2, 2] (by decide) (by decide)
      (by with_unfolding_all decide)⟩

/-- C9: for every input with at least one category, correlation_table
(corr_table) succeeds and its two per-sample tables are indexed by the
samples, but every row of each per-sample table holds the same values: for
each method, the absolute correlation computed for the LAST category of the
per-category loop (the loop variable `cell` is not rebound inside the
per-sample loop), so the per-sample tables carry no per-sample
information. -/
theorem C9_per_sample_rows_constant (pearsonr spearmanr : List ℚ → List ℚ → ℚ)
    (methods : List String) (results : String → DF) (cell_types : List String)
    (true_freqs : DF) (hct : cell_types ≠ []) :
    ∃ pc ps sc ss,
      corr_table pearsonr spearmanr methods results cell_types true_freqs =
        .ok (pc, ps, sc, ss) ∧
      ps.keys = true_freqs.keys ∧ ss.keys = true_freqs.keys ∧
      (∀ r ∈ ps.rows, r.2 = methods.map (fun m =>
        |pearsonr ((results m).col (cell_types.getLastD ""))
          (true_freqs.col (cell_types.getLastD ""))|)) ∧
      (∀ r ∈ ss.rows, r.2 = methods.map (fun m =>
        |spearmanr ((results m).col (cell_types.getLastD ""))
          (true_freqs.col (cell_types.getLastD ""))|)) ∧
      (∀ r1 ∈ ps.rows, ∀ r2 ∈ ps.rows, r1.2 = r2.2) ∧
      (∀ r1 ∈ ss.rows, ∀ r2 ∈ ss.rows, r1.2 = r2.2) := by
  have hcond : (cell_types.isEmpty && !true_freqs.rows.isEmpty) = false := by
    rcases cell_types with _ | ⟨c, cs⟩
    · exact absurd rfl hct
    · rfl
  refine ⟨⟨methods, cell_types.map (fun cell => (cell,
      methods.map (fun m => |pearsonr ((results m).col cell) (true_freqs.col cell)|)))⟩,
    ⟨methods, true_freqs.keys.map (fun s => (s,
      methods.map (fun m => |pearsonr ((results m).col (cell_types.getLastD ""))
        (true_freqs.col (cell_types.getLastD ""))|)))⟩,
    ⟨methods, cell_types.map (fun cell => (cell,
      methods.map (fun m => |spearmanr ((results m).col cell) (true_freqs.col cell)|)))⟩,
    ⟨methods, true_freqs.keys.map (fun s => (s,
      methods.map (fun m => |spearmanr ((results m).col (cell_types.getLastD ""))
        (true_freqs.col (cell_types.getLastD ""))|)))⟩,
    ?_, ?_, ?_, ?_, ?_, ?_, ?_⟩
  · unfold corr_table
    rw [hcond]
    rfl
  · show (true_freqs.keys.map _).map Prod.fst = true_freqs.keys
    rw [List.map_map]
    exact List.map_id _
  · show (true_freqs.keys.map _).map Prod.fst = true_freqs.keys
    rw [List.map_map]
    exact List.map_id _
  · intro r hr
    rcases List.mem_map.mp hr with ⟨s, _, rfl⟩
    rfl
  · intro r hr
    rcases List.mem_map.mp hr with ⟨s, _, rfl⟩
    rfl
  · intro r1 h1 r2 h2
    rcases List.mem_map.mp h1 with ⟨s1, _, rfl⟩
    rcases List.mem_map.mp h2 with ⟨s2, _, rfl⟩
    rfl
  · intro r1 h1 r2 h2
    rcases List.mem_map.mp h1 with ⟨s1, _, rfl⟩
    rcases List.mem_map.mp h2 with ⟨s2, _, rfl⟩
    rfl

theorem C9_per_sample_rows_constant_witness :
    (["CD4", "CD8"] : List String) ≠ [] ∧
    (∃ pc ps sc ss,
      corr_table (fun _ _ => 1/2) (fun _ _ => 1/3) ["m1"] (fun _ => ⟨[], []⟩) ["CD4", "CD8"]
          ⟨["CD4", "CD8"], [("s1", [1, 2]), ("s2", [3, 4])]⟩ =
        .ok (pc, ps, sc, ss) ∧
      ps.keys = (⟨["CD4", "CD8"], [("s1", [1, 2]), ("s2", [3, 4])]⟩ : DF).keys ∧
      ss.keys = (⟨["CD4", "CD8"], [("s1", [1, 2]), ("s2", [3, 4])]⟩ : DF).keys ∧
      (∀ r ∈ ps.rows, r.2 = (["m1"] : List String).map (fun m =>
        |(fun (_ _ : List ℚ) => (1 : ℚ)/2) (((fun _ : String => (⟨[], []⟩ : DF)) m).col ((["CD4", "CD8"] : List String).getLastD ""))
          ((⟨["CD4", "CD8"], [("s1", [1, 2]), ("s2", [3, 4])]⟩ : DF).col ((["CD4", "CD8"] : List String).getLastD ""))|)) ∧
      (∀ r ∈ ss.rows, r.2 = (["m1"] : List String).map (fun m =>
        |(fun (_ _ : List ℚ) => (1 : ℚ)/3) (((fun _ : String => (⟨[], []⟩ : DF)) m).col ((["CD4", "CD8"] : List String).getLastD ""))
          ((⟨["CD4", "CD8"], [("s1", [1, 2]), ("s2", [3, 4])]⟩ : DF).col ((["CD4", "CD8"] : List String).getLastD ""))|)) ∧
      (∀ r1 ∈ ps.rows, ∀ r2 ∈ ps.rows, r1.2 = r2.2) ∧
      (∀ r1 ∈ ss.rows, ∀ r2 ∈ ss.rows, r1.2 = r2.2)) :=
  ⟨by decide,
    C9_per_sample_rows_constant (fun _ _ => 1/2) (fun _ _ => 1/3) ["m1"]
      (fun _ => ⟨[], []⟩) ["CD4", "CD8"]
      ⟨["CD4", "CD8"], [("s1", [1, 2]), ("s2", [3, 4])]⟩ (by decide)⟩

/-- Folded minimum is a lower bound of the seed and the elements. -/
theorem foldl_min_le (as : List ℚ) : ∀ a x : ℚ, x ∈ a :: as → as.foldl min a ≤ x := by
  induction as with
  | nil =>
    intro a x hx
    have hxa : x = a := by simpa using hx
    rw [hxa]
    exact le_refl a
  | cons b bs ih =>
    intro a x hx
    simp only [List.foldl_cons]
    rcases List.mem_cons.mp hx with rfl | hx'
    · exact le_trans (ih (min x b) (min x b) (List.mem_cons_self _ _)) (min_le_left _ _)
    · rcases List.mem_cons.mp hx' with rfl | hx''
      · exact le_trans (ih (min a x) (min a x) (List.mem_cons_self _ _)) (min_le_right _ _)
      · exact ih (min a b) x (List.mem_cons_of_mem _ hx'')

/-- Folded maximum is an upper bound of the seed and the elements. -/
theorem le_foldl_max (as : List ℚ) : ∀ a x : ℚ, x ∈ a :: as → x ≤ as.foldl max a := by
  induction as with
  | nil =>
    intro a x hx
    have hxa : x = a := by simpa using hx
    rw [hxa]
    exact le_refl a
  | cons b bs ih =>
    intro a x hx
    simp only [List.foldl_cons]
    rcases List.mem_cons.mp hx with rfl | hx'
    · exact le_trans (le_max_left _ _) (ih (max x b) (max x b) (List.mem_cons_self _ _))
    · rcases List.mem_cons.mp hx' with rfl | hx''
      · exact le_trans (le_max_right _ _) (ih (max a x) (max a x) (List.mem_cons_self _ _))
      · exact ih (max a b) x (List.mem_cons_of_mem _ hx'')

/-- The slice minimum bounds every slice element from below. -/
theorem listMin_le {c : List ℚ} {x : ℚ} (hx : x ∈ c) : listMin c ≤ x := by
  cases c with
  | nil => cases hx
  | cons a as => exact foldl_min_le as a x hx

/-- The slice maximum bounds every slice element from above. -/
theorem le_listMax {c : List ℚ} {x : ℚ} (hx : x ∈ c) : x ≤ listMax c := by
  cases c with
  | nil => cases hx
  | cons a as => exact le_foldl_max as a x hx

/-- Every MinMaxScaler output of a slice element lies in [0, 1]. -/
theorem scaleEntry_bounds (c : List ℚ) (x : ℚ) (hx : x ∈ c) :
    0 ≤ scaleEntry c x ∧ scaleEntry c x ≤ 1 := by
  have hmn := listMin_le hx
  have hmx := le_listMax hx
  unfold scaleEntry
  by_cases h : listMax c - listMin c = 0
  · rw [if_pos h]
    have hxeq : x = listMin c := le_antisymm (by linarith) hmn
    rw [hxeq, sub_self]
    norm_num
  · rw [if_neg h]
    have hlt : 0 < listMax c - listMin c := by
      rcases lt_or_eq_of_le (sub_nonneg.mpr (le_trans hmn hmx)) with h1 | h1
      · exact h1
      · exact absurd h1.symm h
    constructor
    · exact div_nonneg (by linarith) (le_of_lt hlt)
    · rw [div_le_one hlt]
      linarith

/-- A slice element equal to the slice minimum rescales to 0. -/
theorem scaleEntry_min_eq_zero (c : List ℚ) : scaleEntry c (listMin c) = 0 := by
  unfold scaleEntry
  rw [sub_self, zero_div]

/-- On a non-constant slice, the slice maximum rescales to 1. -/
theorem scaleEntry_max_eq_one (c : List ℚ) (h : listMin c < listMax c) :
    scaleEntry c (listMax c) = 1 := by
  have hne : listMax c - listMin c ≠ 0 := sub_ne_zero.mpr (ne_of_gt h)
  unfold scaleEntry
  rw [if_neg hne]
  exact div_self hne

/-- On a constant slice every element rescales to 0 (the zero denominator is
replaced by 1), so in particular the slice maximum does NOT rescale to 1. -/
theorem scaleEntry_of_const (c : List ℚ) (h : listMax c = listMin c)
    (x : ℚ) (hx : x ∈ c) : scaleEntry c x = 0 := by
  have hxeq : x = listMin c := le_antisymm (h ▸ le_listMax hx) (listMin_le hx)
  rw [hxeq]
  exact scaleEntry_min_eq_zero c

/-- Reading an enumerated-and-mapped list at a valid position, generic form. -/
theorem enum_map_getD_at {α β : Type} (l : List α) (f : ℕ × α → β) (j : ℕ) (d : β)
    (da : α) (h : j < l.length) :
    (l.enum.map f).getD j d = f (j, l.getD j da) := by
  have h1 : j < (l.enum.map f).length := by
    simpa [List.enum_length] using h
  rw [List.getD_eq_getElem _ _ h1, List.getElem_map, List.getElem_enum,
    List.getD_eq_getElem _ _ h]

/-- Column j of the MinMaxScaler output is the rescaling of column j of the
input, on a rectangular matrix. -/
theorem colVals_minmaxCols (m : List (List ℚ)) (k j : ℕ)
    (hrect : ∀ r ∈ m, r.length = k) (hj : j < k) :
    colVals (minmaxCols m) j = scaleList (colVals m j) := by
  apply List.ext_getElem?
  intro i
  simp only [colVals, minmaxCols, scaleList, List.getElem?_map]
  cases hmi : m[i]? with
  | none => rfl
  | some r =>
    simp only [Option.map_some']
    congr 1
    have hr : r ∈ m := List.getElem?_mem hmi
    have hlen : r.length = k := hrect r hr
    rw [enum_map_getD_at r _ j 0 0 (by rw [hlen]; exact hj)]

/-- Row i of the transpose of a rectangular matrix, read back as a column,
is row i of the matrix. -/
theorem colVals_mTranspose (k : ℕ) (m : List (List ℚ)) (i : ℕ) (hi : i < m.length)
    (hrect : ∀ r ∈ m, r.length = k) :
    colVals (mTranspose k m) i = m[i] := by
  have hleni : (m[i]).length = k := hrect _ (List.getElem_mem _)
  apply List.ext_getElem?
  intro j
  simp only [colVals, mTranspose, List.getElem?_map]
  by_cases hj : j < k
  · rw [List.getElem?_eq_getElem (by simpa using hj),
      List.getElem?_eq_getElem (by rw [hleni]; exact hj)]
    simp only [Option.map_some', List.getElem_range]
    congr 1
    rw [List.getD_eq_getElem _ _ (by simpa using hi), List.getElem_map,
      List.getD_eq_getElem _ _ (by rw [hleni]; exact hj)]
  · rw [List.getElem?_eq_none (by simpa using not_lt.mp hj),
      List.getElem?_eq_none (by rw [hleni]; exact not_lt.mp hj)]
    rfl

/-- The axis = 1 minmax pipeline (transpose, rescale columns, transpose back)
rescales every row of a rectangular matrix by itself. -/
theorem axis1_minmax (m : List (List ℚ)) (k : ℕ) (hrect : ∀ r ∈ m, r.length = k) :
    mTranspose m.length (minmaxCols (mTranspose k m)) = m.map scaleList := by
  have hTrect : ∀ r ∈ mTranspose k m, r.length = m.length := by
    intro r hr
    rcases List.mem_map.mp hr with ⟨j, _, rfl⟩
    simp [colVals]
  apply List.ext_getElem
  · simp [mTranspose]
  · intro i h1 h2
    have him : i < m.length := by simpa [mTranspose] using h1
    calc (mTranspose m.length (minmaxCols (mTranspose k m)))[i]
        = colVals (minmaxCols (mTranspose k m)) i := by
          simp only [mTranspose, List.getElem_map, List.getElem_range]
      _ = scaleList (colVals (mTranspose k m) i) :=
          colVals_minmaxCols (mTranspose k m) m.length i hTrect him
      _ = scaleList m[i] := by rw [colVals_mTranspose k m i him hrect]
      _ = (m.map scaleList)[i] := (List.getElem_map _).symm

/-- Values survive relabelling whenever the new value matrix has no more rows
than the original table. -/
theorem relabel_vals (df : DF) (m : List (List ℚ)) (h : m.length ≤ df.rows.length) :
    (relabel df m).vals = m := by
  show (df.keys.zip m).map Prod.snd = m
  exact List.map_snd_zip _ _ (by simpa [DF.keys] using h)

/-- C5 counterexample: on the one-cell table with value 5 (a constant column)
minmax normalization returns 0 in the only cell.  That cell holds the
column's original maximum, yet it maps to 0 and not to 1, because
MinMaxScaler replaces the zero denominator max - min by 1; so the claim that
the position holding the original maximum always maps to 1 is false. -/
theorem C5_counterexample_constant_column :
    df_normalization (fun m _ => m) ⟨["c1"], [("g1", [5])]⟩ "minmax" 0 =
      .ok ⟨["c1"], [("g1", [0])]⟩ ∧
    listMax ([5] : List ℚ) = 5 ∧ (0 : ℚ) ≠ 1 := by
  refine ⟨by with_unfolding_all rfl, by with_unfolding_all rfl, by decide⟩

/-- C5 (amended): for every well-formed table and axis in 0/1, minmax
normalization succeeds, preserves the labels, and rescales every slice along
the normalization axis (column for axis 0, row for axis 1) by
`scaleEntry`; every rescaled value lies in [0, 1]; within each slice a value
equal to the slice minimum maps to 0, a value equal to the slice maximum maps
to 1 provided the slice is not constant, and on a constant slice every value
(including the maximum) maps to 0. -/
theorem C5_minmax_unit_interval (zscale : List (List ℚ) → ℕ → List (List ℚ))
    (df : DF) (hwf : df.WF) (axis : ℕ) (haxis : axis = 0 ∨ axis = 1) :
    ∃ out, df_normalization zscale df "minmax" axis = .ok out ∧
      out.cols = df.cols ∧ out.keys = df.keys ∧
      (axis = 0 → ∀ j, j < df.cols.length →
        colVals out.vals j = scaleList (colVals df.vals j)) ∧
      (axis = 1 → out.vals = df.vals.map scaleList) ∧
      (∀ c : List ℚ, ∀ x ∈ c, 0 ≤ scaleEntry c x ∧ scaleEntry c x ≤ 1) ∧
      (∀ c : List ℚ, scaleEntry c (listMin c) = 0) ∧
      (∀ c : List ℚ, listMin c < listMax c → scaleEntry c (listMax c) = 1) ∧
      (∀ c : List ℚ, listMax c = listMin c → ∀ x ∈ c, scaleEntry c x = 0) := by
  have hrect : ∀ r ∈ df.vals, r.length = df.cols.length := by
    intro r hr
    rcases List.mem_map.mp hr with ⟨p, hp, rfl⟩
    exact hwf p hp
  have hvlen : df.vals.length = df.rows.length := by simp [DF.vals]
  rcases haxis with rfl | rfl
  · refine ⟨relabel df (minmaxCols df.vals), by simp [df_normalization], rfl,
      relabel_keys df _ (by simp [minmaxCols, hvlen]), ?_, ?_,
      scaleEntry_bounds, scaleEntry_min_eq_zero, scaleEntry_max_eq_one,
      scaleEntry_of_const⟩
    · intro _ j hj
      rw [relabel_vals df _ (by simp [minmaxCols, hvlen])]
      exact colVals_minmaxCols df.vals df.cols.length j hrect hj
    · intro h10
      cases h10
  · refine ⟨relabel df (mTranspose df.vals.length (minmaxCols (mTranspose df.cols.length df.vals))),
      by simp [df_normalization], rfl,
      relabel_keys df _ (by simp [mTranspose, hvlen]), ?_, ?_,
      scaleEntry_bounds, scaleEntry_min_eq_zero, scaleEntry_max_eq_one,
      scaleEntry_of_const⟩
    · intro h01
      cases h01
    · intro _
      rw [relabel_vals df _ (by simp [mTranspose, hvlen])]
      exact axis1_minmax df.vals df.cols.length hrect

theorem C5_minmax_unit_interval_witness :
    ((⟨["c1", "c2"], [("g1", [1, 4]), ("g2", [3, 2])]⟩ : DF).WF ∧
     ((0 : ℕ) = 0 ∨ (0 : ℕ) = 1)) ∧
    (∃ out, df_normalization (fun m' (_ : ℕ) => m')
        ⟨["c1", "c2"], [("g1", [1, 4]), ("g2", [3, 2])]⟩ "minmax" 0 = .ok out ∧
      out.cols = (⟨["c1", "c2"], [("g1", [1, 4]), ("g2", [3, 2])]⟩ : DF).cols ∧
      out.keys = (⟨["c1", "c2"], [("g1", [1, 4]), ("g2", [3, 2])]⟩ : DF).keys ∧
      ((0 : ℕ) = 0 → ∀ j, j < (⟨["c1", "c2"], [("g1", [1, 4]), ("g2", [3, 2])]⟩ : DF).cols.length →
        colVals out.vals j =
          scaleList (colVals (⟨["c1", "c2"], [("g1", [1, 4]), ("g2", [3, 2])]⟩ : DF).vals j)) ∧
      ((0 : ℕ) = 1 → out.vals =
        (⟨["c1", "c2"], [("g1", [1, 4]), ("g2", [3, 2])]⟩ : DF).vals.map scaleList) ∧
      (∀ c : List ℚ, ∀ x ∈ c, 0 ≤ scaleEntry c x ∧ scaleEntry c x ≤ 1) ∧
      (∀ c : List ℚ, scaleEntry c (listMin c) = 0) ∧
      (∀ c : List ℚ, listMin c < listMax c → scaleEntry c (listMax c) = 1) ∧
      (∀ c : List ℚ, listMax c = listMin c → ∀ x ∈ c, scaleEntry c x = 0)) :=
  ⟨⟨by decide, Or.inl rfl⟩,
    C5_minmax_unit_interval (fun m' (_ : ℕ) => m')
      ⟨["c1", "c2"], [("g1", [1, 4]), ("g2", [3, 2])]⟩ (by decide) 0 (Or.inl rfl)⟩
